import Mathlib

/-!
Verification development for the go-esi (sc0rp10 fork) ESI processor.

The Go sources are shallowly embedded here:
  * byte buffers and header values become `List Char`;
  * `time.Time` instants and Go `int` values become `Int`;
  * fallible operations become `Option`;
  * the mutable fragment cache becomes a pure state-transition system;
  * the single-flight coordinator (`GetOrFetch`) becomes an explicit
    interleaving model over thread program counters.

Each embedded definition carries a comment naming the Go function it
translates.  External library behaviour (Go standard library: `strings`,
`strconv`, `net/url`, `regexp` literals) is modelled by small faithful
Lean functions restricted to the feature subset the program uses.
-/

namespace GoEsi

/-! ## Basic string helpers (models of Go standard library functions) -/

/-- Model of `regexp.FindIndex` for a literal pattern: the start index of the
first occurrence of `pat` in `b`, or `none`.  The end index of the match is
`start + pat.length`. -/
def findSubstr (pat : List Char) : List Char → Option Nat
  | [] => if pat = [] then some 0 else none
  | c :: rest =>
    if pat.isPrefixOf (c :: rest) then some 0
    else (findSubstr pat rest).map (· + 1)

/-- Go `unicode.IsSpace` restricted to ASCII (the only characters that occur
in `Cache-Control` values). -/
def goIsSpace (c : Char) : Bool :=
  c = ' ' || c = '\t' || c = '\n' || c = '\x0d' || c = '\x0b' || c = '\x0c'

/-- Model of Go `strings.TrimSpace`. -/
def goTrim (s : List Char) : List Char :=
  ((s.dropWhile goIsSpace).reverse.dropWhile goIsSpace).reverse

/-- Model of Go `strings.Split(s, sep)` for a one-character separator:
splits at every occurrence, keeping empty pieces. -/
def splitOn (sep : Char) : List Char → List (List Char)
  | [] => [[]]
  | c :: rest =>
    if c = sep then [] :: splitOn sep rest
    else
      match splitOn sep rest with
      | [] => [[c]]
      | p :: ps => (c :: p) :: ps

/-- Numeric value of a digit string. -/
def digitsVal (s : List Char) : Int :=
  s.foldl (fun a c => a * 10 + (Int.ofNat (c.toNat - '0'.toNat))) 0

/-- Model of Go `strconv.Atoi`: an optional sign followed by one or more
digits; anything else is an error (`none`).  Overflow of 64-bit ints is not
modelled; no claim involves values of that size. -/
def atoi (s : List Char) : Option Int :=
  match s with
  | [] => none
  | '+' :: rest =>
    if rest ≠ [] ∧ rest.all Char.isDigit then some (digitsVal rest) else none
  | '-' :: rest =>
    if rest ≠ [] ∧ rest.all Char.isDigit then some (-(digitsVal rest)) else none
  | _ => if s.all Char.isDigit then some (digitsVal s) else none

/-! ## TTL derivation (`parseTTL`, cache source lines 384-412) -/

/-- `defaultTTL` constant from the cache source. -/
def defaultTTL : Int := 300

/-- `maxCacheEntries` constant from the cache source. -/
def maxCacheEntries : Nat := 1000

/-- The literal prefix `max-age=` tested by `strings.HasPrefix`. -/
def maxAgePat : List Char := "max-age=".toList

/-- One iteration of the `parseTTL` directive loop: `some v` when the loop
body executes a `return v` for this directive (the `max-age=` branch first,
with `strconv.Atoi` succeeding on a non-negative value, then the
`no-cache` / `no-store` comparison), `none` when the loop continues. -/
def directiveResult (dir : List Char) : Option Int :=
  let d := goTrim dir
  let maxAge : Option Int :=
    if maxAgePat.isPrefixOf d then
      match atoi (d.drop maxAgePat.length) with
      | some n => if 0 ≤ n then some n else none
      | none => none
    else none
  match maxAge with
  | some n => some n
  | none =>
    if d = "no-cache".toList ∨ d = "no-store".toList then some 0
    else none

/-- The directive loop of `parseTTL` over the comma-split directives, in
order; `defaultTTL` when the list is exhausted without a `return`. -/
def parseTTLDirectives : List (List Char) → Int
  | [] => defaultTTL
  | dir :: rest =>
    match directiveResult dir with
    | some n => n
    | none => parseTTLDirectives rest

/-- Model of `parseTTL(resp)`.  The input is the `Cache-Control` header value:
`none` models a nil response; `resp.Header.Get` returns the empty string when
the header is absent, so an absent header is the empty list. -/
def parseTTL : Option (List Char) → Int
  | none => defaultTTL
  | some cc =>
    if cc = [] then defaultTTL
    else parseTTLDirectives (splitOn ',' cc)

/-- Whether a directive trims to `no-cache` or `no-store` (the equality the
loop tests). -/
def isNoCacheDirective (dir : List Char) : Bool :=
  goTrim dir = "no-cache".toList || goTrim dir = "no-store".toList

/-! ## Fragment cache (`fragmentCache`: `Get`, `Put`, `Reset`)

The Go cache keeps a `map[string]*list.Element` *and* a doubly-linked LRU
list of `cacheEntry` values; the map values are pointers into the list.  The
embedding keeps the map as its key list (`entries`) and the LRU list as a
Lean list with the front at the head (`lru`); the pointer from a map entry to
its list element is recovered by looking the key up in `lru` (under the
coupling invariant each live key has exactly one element). -/

/-- `cacheEntry` from the cache source. -/
structure CacheEntry where
  url : List Char
  data : List Char
  expiresAt : Int
deriving DecidableEq, Repr

/-- State of `fragmentCache` (map keys plus LRU list, front = most recent). -/
structure FragmentCache where
  entries : List (List Char)
  lru : List CacheEntry
deriving DecidableEq, Repr

/-- The zero-value cache both the package initializer and `Reset` produce. -/
def cacheInit : FragmentCache := { entries := [], lru := [] }

/-- Model of `fragmentCache.Get(url)` at instant `now`.  Returns the hit data
(if any) and the updated cache: a hit moves its element to the LRU front
(`c.lru.MoveToFront(elem)`); a miss or an expired entry leaves the state
unchanged (`time.Now().After(expiresAt)` is the strict test `expiresAt < now`).
The `none` inner branch is unreachable under the map/list coupling invariant:
in Go the map value is a live pointer into the list. -/
def cacheGet (c : FragmentCache) (url : List Char) (now : Int) :
    Option (List Char) × FragmentCache :=
  if url ∈ c.entries then
    match c.lru.find? (fun e => e.url = url) with
    | none => (none, c)
    | some e =>
      if e.expiresAt < now then (none, c)
      else (some e.data, { c with lru := e :: c.lru.eraseP (fun e' => e'.url = url) })
  else (none, c)

/-- The eviction loop at the end of `Put`: while the LRU list is longer than
`maxCacheEntries`, remove the back element and delete its key from the map. -/
def evictLoop (entries : List (List Char)) (lru : List CacheEntry) :
    List (List Char) × List CacheEntry :=
  if h : maxCacheEntries < lru.length then
    match lru.getLast? with
    | none => (entries, lru)
    | some oldest => evictLoop (entries.erase oldest.url) lru.dropLast
  else (entries, lru)
termination_by lru.length
decreasing_by
  simp only [List.length_dropLast]
  omega

/-- Model of `fragmentCache.Put(url, data, resp)` at instant `now`, with `cc`
the `Cache-Control` value of `resp` (see `parseTTL`).  TTL 0 means do not
cache; an existing key has its entry data and expiry overwritten and is moved
to the front; a new key is pushed to the front and the eviction loop runs. -/
def cachePut (c : FragmentCache) (url data : List Char) (cc : Option (List Char))
    (now : Int) : FragmentCache :=
  let ttl := parseTTL cc
  if ttl = 0 then c
  else if url ∈ c.entries then
    { c with lru := { url := url, data := data, expiresAt := now + ttl } ::
        c.lru.eraseP (fun e => e.url = url) }
  else
    let lru1 := ({ url := url, data := data, expiresAt := now + ttl } : CacheEntry) :: c.lru
    let p := evictLoop (url :: c.entries) lru1
    { entries := p.1, lru := p.2 }

/-- Model of `fragmentCache.Reset()`. -/
def cacheReset : FragmentCache := { entries := [], lru := [] }

/-- One public cache operation, with its call instant. -/
inductive CacheOp
  | put (url data : List Char) (cc : Option (List Char)) (now : Int)
  | get (url : List Char) (now : Int)
  | reset

/-- Apply one operation to a cache state. -/
def applyOp (c : FragmentCache) : CacheOp → FragmentCache
  | .put u d cc now => cachePut c u d cc now
  | .get u now => (cacheGet c u now).2
  | .reset => cacheReset

/-- Run a sequence of operations from the initial cache. -/
def runOps (ops : List CacheOp) : FragmentCache :=
  ops.foldl applyOp cacheInit

/-- Coupling invariant of the cache: the map keys are exactly the urls on the
LRU list (no duplicates), and the list respects the entry bound. -/
def cacheInv (c : FragmentCache) : Prop :=
  c.entries.Nodup ∧ c.entries.Perm (c.lru.map (·.url)) ∧
    c.lru.length ≤ maxCacheEntries

/-! ## Spec-side TTL (for the refinement comparison of claim C5) -/

/-- Written from the spec words, for comparison with the code: after deriving
TTL `derived`, `MinimumCacheTTL` raises it if higher (never lowers) and
`CacheTTLJitter` adds a uniform draw `jitterDraw` from `[0, J]`; both
adjustments apply only when the TTL is positive. -/
def specStoredTTL (minimumCacheTTL jitterDraw derived : Int) : Int :=
  if 0 < derived then max derived minimumCacheTTL + jitterDraw else derived

/-! ## Single-flight coordinator (`GetOrFetch`, cache source lines 266-321)

Two callers A and B race on the same key with an initially empty cache.
Each caller executes the `GetOrFetch` body; the shared state holds the cache
value for the key, the in-flight table entry (`recInstalled`), and the single
`inFlightRequest` record allocated by the winning `LoadOrStore` (its
`sync.WaitGroup` counter and its `result` field).  A deleted table entry
leaves the record object itself reachable by waiters that loaded it earlier.
Steps are the atomic actions of the Go code in program order; `sync.Map.
LoadOrStore` is one atomic step; `wg.Wait` proceeds exactly when the counter
is zero (Go semantics: a `Wait` that observes a zero counter returns at
once). The winning caller runs, in order: `wg.Add(1)`, `fetchFn`, the result
store, `Put` (status 200 path), then the deferred `wg.Done` and
`inFlight.Delete`, then returns. -/

/-- Program counter of one `GetOrFetch` caller. -/
inductive SFPC
  | start        -- about to run the fast-path Get
  | loadOrStore  -- about to run c.inFlight.LoadOrStore
  | wgAdd        -- winner: req.wg.Add(1)
  | runFetch     -- winner: data, resp, err := fetchFn()
  | storeResult  -- winner: req.result = data; req.err = err
  | putCache     -- winner: c.Put(url, data, resp) (200 path)
  | wgDone       -- winner (deferred): req.wg.Done()
  | deleteRec    -- winner (deferred): c.inFlight.Delete(url)
  | retWinner    -- winner: return data, nil
  | waitLatch    -- loser: req.wg.Wait()
  | readResult   -- loser: return req.result, req.err
  | finished
deriving DecidableEq, Repr

/-- Local state of one caller. -/
structure SFThread where
  pc : SFPC
  ret : Option (Option (List Char))  -- some r once the caller returned r
deriving DecidableEq, Repr

/-- Shared state of the two-caller race. -/
structure SFState where
  cacheVal : Option (List Char)  -- cache content for the key
  recInstalled : Bool            -- key present in c.inFlight
  recCounter : Nat               -- the record WaitGroup counter
  recResult : Option (List Char) -- the record result field (nil initially)
  fetchCount : Nat               -- number of fetchFn executions
  thA : SFThread
  thB : SFThread
deriving DecidableEq, Repr

/-- Initial state: empty cache, no in-flight record, both callers entering. -/
def sfInit : SFState :=
  { cacheVal := none, recInstalled := false, recCounter := 0, recResult := none
    fetchCount := 0
    thA := { pc := .start, ret := none }, thB := { pc := .start, ret := none } }

/-- One atomic step of the thread whose local state is `t`, returning the
updated shared fields and local state.  `d` is the data `fetchFn` produces
(with a 200 response and nil error). -/
def sfStepThread (d : List Char) (s : SFState) (t : SFThread) :
    SFState × SFThread :=
  match t.pc with
  | .start =>
    match s.cacheVal with
    | some v => (s, { t with pc := .finished, ret := some (some v) })
    | none => (s, { t with pc := .loadOrStore })
  | .loadOrStore =>
    if s.recInstalled then
      (s, { t with pc := .waitLatch })          -- loaded = true: loser
    else
      ({ s with recInstalled := true, recCounter := 0, recResult := none },
        { t with pc := .wgAdd })                 -- stored a fresh record: winner
  | .wgAdd => ({ s with recCounter := s.recCounter + 1 }, { t with pc := .runFetch })
  | .runFetch => ({ s with fetchCount := s.fetchCount + 1 }, { t with pc := .storeResult })
  | .storeResult => ({ s with recResult := some d }, { t with pc := .putCache })
  | .putCache => ({ s with cacheVal := some d }, { t with pc := .wgDone })
  | .wgDone => ({ s with recCounter := s.recCounter - 1 }, { t with pc := .deleteRec })
  | .deleteRec => ({ s with recInstalled := false }, { t with pc := .retWinner })
  | .retWinner => (s, { t with pc := .finished, ret := some (some d) })
  | .waitLatch =>
    if s.recCounter = 0 then (s, { t with pc := .readResult })
    else (s, t)                                  -- blocked
  | .readResult => (s, { t with pc := .finished, ret := some s.recResult })
  | .finished => (s, t)

/-- One scheduler step: `true` runs caller A, `false` runs caller B. -/
def sfStep (d : List Char) (s : SFState) (tid : Bool) : SFState :=
  if tid then
    let p := sfStepThread d s s.thA
    { p.1 with thA := p.2 }
  else
    let p := sfStepThread d s s.thB
    { p.1 with thB := p.2 }

/-- Run a schedule (list of thread choices) from the initial state. -/
def sfRun (d : List Char) (sched : List Bool) : SFState :=
  sched.foldl (sfStep d) sfInit

/-- The racy schedule: A wins `LoadOrStore`; B loses and calls `wg.Wait`
before A has reached `wg.Add(1)`, so the wait falls through on the zero
counter and B reads the not-yet-written result field. -/
def sfRacySchedule : List Bool :=
  [true, true, false, false, false, false,
    true, true, true, true, true, true, true]

/-! ## URL resolution (`sanitizeURL`, `resolveFragmentURL`)

Model of the `net/url` subset the program exercises: absolute URLs of the
form `scheme://host[/path]` and rooted path references `/path`.  `host` is
Go's `URL.Host` field, i.e. the authority `host` or `host:port`. -/

/-- Parsed URL (the fields of `net/url.URL` the program reads). -/
structure GoURL where
  scheme : String
  host : String
  path : String
deriving DecidableEq, Repr

/-- Model of `url.Parse` for the URL shapes the program handles: an absolute
URL `scheme://host/path` or a reference carrying no scheme and no authority.
`url.Parse` only errors on malformed escapes and control characters, which no
claim exercises, so parsing always succeeds here. -/
def parseURL (s : String) : Option GoURL :=
  match findSubstr "://".toList s.toList with
  | some i =>
    let scheme := (s.toList.take i).asString
    let rest := s.toList.drop (i + 3)
    let host := (rest.takeWhile (· ≠ '/')).asString
    let path := (rest.dropWhile (· ≠ '/')).asString
    some { scheme := scheme, host := host, path := path }
  | none => some { scheme := "", host := "", path := s }

/-- Model of `url.URL.String` for the shapes above. -/
def urlString (u : GoURL) : String :=
  (if u.scheme ≠ "" then u.scheme ++ "://" ++ u.host
   else if u.host ≠ "" then "//" ++ u.host else "") ++ u.path

/-- Model of `url.URL.ResolveReference` (RFC 3986 §5.3) for the shapes
above: an absolute reference wins; a reference with an authority takes the
base scheme; a rooted path replaces the base path; an empty path keeps the
base; a relative path merges onto the base path directory. -/
def resolveReference (base ref : GoURL) : GoURL :=
  if ref.scheme ≠ "" then ref
  else if ref.host ≠ "" then { scheme := base.scheme, host := ref.host, path := ref.path }
  else if ref.path = "" then base
  else if "/".toList.isPrefixOf ref.path.toList then { base with path := ref.path }
  else
    let dir := (base.path.toList.reverse.dropWhile (· ≠ '/')).reverse
    { base with path := dir.asString ++ ref.path }

/-- Model of `sanitizeURL(u, reqURL)` (include source lines 83-94): parse
`u`; resolve it against the request URL when one is present. -/
def sanitizeURL (u : String) (reqURL : Option GoURL) : String :=
  match parseURL u with
  | none => u
  | some parsed =>
    match reqURL with
    | none => urlString parsed
    | some r => urlString (resolveReference r parsed)

/-- Model of `resolveFragmentURL(fragmentURL, requestURL)` (config source
lines 62-96), with the configured `BaseURL` passed explicitly: when the
configured base URL is non-empty, parse it (falling back to `sanitizeURL` on
error) and resolve the fragment URL against it; otherwise resolve against the
request URL. -/
def resolveFragmentURL (baseURLCfg : String) (fragmentURL : String)
    (requestURL : Option GoURL) : String :=
  if baseURLCfg ≠ "" then
    match parseURL baseURLCfg with
    | none => sanitizeURL fragmentURL requestURL
    | some baseURL =>
      match parseURL fragmentURL with
      | none => fragmentURL
      | some parsed => urlString (resolveReference baseURL parsed)
  else sanitizeURL fragmentURL requestURL

/-- The fragment key `FetchContent` actually computes (include source line
211): `cacheKey := sanitizeURL(i.src, req.URL)` — the configured base URL is
not consulted. -/
def fetchCacheKey (src : String) (reqURL : Option GoURL) : String :=
  sanitizeURL src reqURL

/-! ## Header forwarding policy (`addHeaders`, include source lines 96-103
and 214-221) -/

/-- A Go `http.Header` as an ordered list of (canonical name, value) pairs;
`Header.Get` returns the first value for the name or the empty string,
`Header.Add` appends. -/
def headerGet (hs : List (String × String)) (name : String) : String :=
  match hs.find? (fun p => p.1 = name) with
  | some p => p.2
  | none => ""

/-- Model of `http.Header.Add` for a fresh value of a name. -/
def headerAdd (hs : List (String × String)) (name v : String) :
    List (String × String) :=
  hs ++ [(name, v)]

/-- `headersSafe` from the include source: safe to pass to any origin. -/
def headersSafe : List String := ["Accept", "Accept-Language"]

/-- `headersUnsafe` from the include source: safe to pass only to
same-origin (same scheme, same host, same port — `URL.Host` carries the
port). -/
def headersUnsafe : List String := ["Cookie", "Authorization"]

/-- Model of `addHeaders(headers, req, rq)`: copy each listed header from
the client request when its value is non-empty. -/
def addHeaders (headers : List String) (reqHeaders rqHeaders : List (String × String)) :
    List (String × String) :=
  headers.foldl
    (fun rq h =>
      let v := headerGet reqHeaders h
      if v ≠ "" then headerAdd rq h v else rq)
    rqHeaders

/-- The headers of the fragment request built by the fetch closure (include
source lines 216-221): a fresh GET request receives the safelist headers
always and the unsafe headers only when the fragment URL and the client
request URL agree on scheme and on `Host` (host plus port). -/
def fragmentRequestHeaders (clientURL rqURL : GoURL)
    (clientHeaders : List (String × String)) : List (String × String) :=
  let rq := addHeaders headersSafe clientHeaders []
  if rqURL.scheme = clientURL.scheme ∧ rqURL.host = clientURL.host then
    addHeaders headersUnsafe clientHeaders rq
  else rq

/-! ## The include fetch closure (`FetchContent`, include source lines
214-258) -/

/-- An HTTP response as the fetch path reads it. -/
structure HResp where
  status : Nat
  body : List Char
deriving DecidableEq, Repr

/-- The failure test on one fetch attempt: `fetchErr != nil ||
response.StatusCode >= 400`.  `none` models a transport error
(`http.Client.Do` returns a nil response exactly when it returns a non-nil
error). -/
def fetchFailed : Option HResp → Bool
  | none => true
  | some resp => 400 ≤ resp.status

/-- Model of the closure passed to `cache.GetOrFetch` by `FetchContent`
(include source lines 214-258), with the two HTTP executions as inputs:
`primary` is the response of the GET on the resolved `src`, `altResp` the
response of the GET on the resolved `alt` (consulted only when the code
fetches it), `altAttr` the raw `alt` attribute (empty when absent), `silent`
the `onerror="continue"` flag, and `process` the recursive `Parse` on the
body.  `none` models the closure returning a nil body (with whatever error
value), which `FetchContent` and the splicer turn into empty bytes;
`some (body, resp)` models `return parsedContent, response, nil`. -/
def includeFetchFn (primary altResp : Option HResp) (altAttr : List Char)
    (silent : Bool) (process : List Char → List Char) :
    Option (List Char × HResp) :=
  if fetchFailed primary ∧ altAttr ≠ [] then
    if ¬silent ∧ fetchFailed altResp then none
    else
      match altResp with
      | none => none
      | some resp => some (process resp.body, resp)
  else
    match primary with
    | none => none
    | some resp => some (process resp.body, resp)

/-- The bytes `GetOrFetch` hands back to `FetchContent` on a cache miss:
the closure's data on success, nil (spliced as empty bytes) on the early
returns.  A nil body with nil error also reaches the caller as nil. -/
def getOrFetchMiss (r : Option (List Char × HResp)) : Option (List Char) :=
  r.map (·.1)

/-- The bytes actually spliced for the include site, given the closure
outcome: `FetchContent` returns nil on error and the splicer appends nil as
empty bytes. -/
def fetchOutcomeBytes (r : Option (List Char × HResp)) : List Char :=
  match r with
  | none => []
  | some (c, _) => c

/-! ## Tag scanner and include planner (parse source: `collectIncludes`,
`processNonIncludes`, `fetchIncludesParallel`, `parseParallel`) -/

/-- Modelled from the spec: the scanner declaration file is not part of the
snapshot; the spec (§4.1) gives the recognized openings as the `<esi:NAME`
family and the inline escape `<!--esi`.  Both regexes are literals, so
`FindIndex` is literal substring search. -/
def esiOpenPat : List Char := "<esi:".toList

/-- Modelled from the spec: the inline escape opening `<!--esi` (§4.1). -/
def escOpenPat : List Char := "<!--esi".toList

/-- The literal `/>` of the `closeInclude` regexp (include source line 25). -/
def closeIncludePat : List Char := "/>".toList

/-- Tag kinds the dispatcher of `findTagName` can produce. -/
inductive TagKind
  | comment | choose | escape | include | remove | vars
deriving DecidableEq, Repr

/-- Modelled from the spec: the `tagname` regex declaration is not part of
the snapshot; the spec (§4.1) dispatches on the tag name following the
opening, so the name is the leading run of lowercase letters. -/
def tagNameOf (b : List Char) : List Char :=
  b.takeWhile (fun c => 'a' ≤ c && c ≤ 'z')

/-- The dispatch switch of `findTagName` (parse source lines 76-113): `try`
is recognized but yields no handler, an unknown name yields none. -/
def findTagName (b : List Char) : Option TagKind :=
  let name := tagNameOf b
  if name = "comment".toList then some .comment
  else if name = "choose".toList then some .choose
  else if name = "escape".toList then some .escape
  else if name = "include".toList then some .include
  else if name = "remove".toList then some .remove
  else if name = "try".toList then none
  else if name = "vars".toList then some .vars
  else none

/-! ### The `src` attribute regex

`srcAttribute = src="?(.+?)"?( |/>)` (include source line 26), with Go
regexp (leftmost-first) semantics: candidate starts are scanned left to
right; at a start, the optional quote is greedy, the capture is lazy and `.`
does not match a newline, and the final group accepts a space or `/>`. -/

/-- Whether the text after the capture matches `"?( |/>)`: the greedy
optional quote first, falling back to no quote. -/
def srcTerminatorOk (r : List Char) : Bool :=
  match r with
  | '"' :: ' ' :: _ => true
  | '"' :: '/' :: '>' :: _ => true
  | ' ' :: _ => true
  | '/' :: '>' :: _ => true
  | _ => false

/-- Lazy capture `(.+?)`: extend one character at a time (never a newline)
and stop at the first point where the terminator matches. -/
def tryCaptureAux : List Char → List Char → Option (List Char)
  | _, [] => none
  | capRev, c :: rest =>
    if c = '\n' then none
    else if srcTerminatorOk rest then some (c :: capRev).reverse
    else tryCaptureAux (c :: capRev) rest

/-- Model of `srcAttribute.FindSubmatch`, returning capture group 1 (the raw
`src` value) of the leftmost match, or `none`. -/
def matchSrcAttr : List Char → Option (List Char)
  | [] => none
  | c :: rest =>
    if "src=".toList.isPrefixOf (c :: rest) then
      let t := (c :: rest).drop 4
      let attempt :=
        match t with
        | '"' :: t2 =>
          match tryCaptureAux [] t2 with
          | some cap => some cap
          | none => tryCaptureAux [] t
        | _ => tryCaptureAux [] t
      match attempt with
      | some cap => some cap
      | none => matchSrcAttr rest
    else matchSrcAttr rest

/-- An include site recorded by the planner (`includeRequest` without the
tag pointer: the tag state is recomputed by `FetchContent` on the recorded
span). -/
structure IncludeReq where
  position : Nat
  length : Nat
deriving DecidableEq, Repr

/-- The loop of `collectIncludes` (parse source lines 177-210).  The fuel
only bounds the iteration count: the pointer advances by at least
`esiOpenPat.length + 1` per iteration, so `b.length + 1` iterations always
suffice and the fuel never runs out when entered through `collectIncludes`. -/
def collectIncludesAux : Nat → List Char → Nat → List IncludeReq
  | 0, _, _ => []
  | fuel + 1, b, pointer =>
    if pointer < b.length then
      let next := b.drop pointer
      match findSubstr esiOpenPat next with
      | none => []
      | some idx =>
        let tagEnd := idx + esiOpenPat.length
        let sites :=
          if findTagName (next.drop tagEnd) = some .include then
            match findSubstr closeIncludePat (next.drop tagEnd) with
            | none => []
            | some cidx =>
              [{ position := pointer + idx,
                 length := (tagEnd - idx) + (cidx + closeIncludePat.length) }]
          else []
        sites ++ collectIncludesAux fuel b (pointer + tagEnd + 1)
    else []

/-- Model of `collectIncludes(b)`. -/
def collectIncludes (b : List Char) : List IncludeReq :=
  collectIncludesAux (b.length + 1) b 0

/-- Model of `includeTag.FetchContent(b, req)` (include source lines
199-265) up to its network interaction: locate the close, parse the
attributes from `b[8:length]` (failing exactly when the `src` regex fails),
then hand the raw `src` to `getOrFetch`, which abstracts
`cache.GetOrFetch(sanitizeURL(src), fetchFn)` — `none` is a non-nil error or
nil data, turned into nil bytes by the caller. -/
def fetchContentModel (b : List Char)
    (getOrFetch : List Char → Option (List Char)) : Option (List Char) :=
  match findSubstr closeIncludePat b with
  | none => none
  | some cidx =>
    let length := cidx + closeIncludePat.length
    match matchSrcAttr ((b.take length).drop 8) with
    | none => none
    | some src => getOrFetch src

/-- One replacement of the splice loop (parse source lines 288-297): clamp
the end to the current buffer, then `b[:pos] ++ content ++ b[endPos:]`. -/
def spliceOne (b content : List Char) (position length : Nat) : List Char :=
  let endPos := min (position + length) b.length
  b.take position ++ content ++ b.drop endPos

/-- The tag byte span a fetch worker slices out of the shared buffer (parse
source lines 267-272), with the end clamped to the buffer. -/
def siteTagBytes (b : List Char) (inc : IncludeReq) : List Char :=
  (b.take (min (inc.position + inc.length) b.length)).drop inc.position

/-- The content a fetch worker computes for one site (parse source lines
264-282): slice the tag bytes out of the shared buffer and run
`FetchContent`; nil becomes empty bytes at splice time. -/
def includeContent (b : List Char) (inc : IncludeReq)
    (getOrFetch : List Char → Option (List Char)) : List Char :=
  match fetchContentModel (siteTagBytes b inc) getOrFetch with
  | none => []
  | some c => c

/-- The `results` array after all workers have joined, paired with their
sites; worker `i` reads the original buffer, so the map is pure.  The
`getOrFetch` oracle is indexed per site. -/
def includeResults (b : List Char) (includes : List IncludeReq)
    (getOrFetch : Nat → List Char → Option (List Char)) :
    List (List Char × IncludeReq) :=
  includes.enum.map (fun p => (includeContent b p.2 (getOrFetch p.1), p.2))

/-- Model of `fetchIncludesParallel` (parse source lines 257-300): compute
all contents from the original buffer, then replace from the last site to
the first. -/
def fetchIncludesParallel (b : List Char) (includes : List IncludeReq)
    (getOrFetch : Nat → List Char → Option (List Char)) : List Char :=
  ((includeResults b includes getOrFetch).reverse).foldl
    (fun acc p => spliceOne acc p.1 p.2.position p.2.length) b

/-- The loop of `processNonIncludes` (parse source lines 213-254).  The
evaluators of the non-include tags live in source files outside the
snapshot, so `t.Process` is the oracle `procTag` (called with the dispatched
tag kind; a nil tag would make the Go code panic, which no theorem below
reaches).  The fuel bounds the number of rewrites; every theorem below exits
the loop before the fuel matters. -/
def processNonIncludesAux (procTag : Option TagKind → List Char → List Char × Nat) :
    Nat → List Char → Nat → List Char
  | 0, b, _ => b
  | fuel + 1, b, pointer =>
    if pointer < b.length then
      let next := b.drop pointer
      let tagIdxE : Option (Nat × Nat) :=
        (findSubstr esiOpenPat next).map (fun i => (i, i + esiOpenPat.length))
      let escIdx := findSubstr escOpenPat next
      let chosen : Option (Nat × Nat × Bool) :=
        match escIdx with
        | some e =>
          match tagIdxE with
          | none => some (e, e, true)
          | some (ts, te) => if e < ts then some (e, e, true) else some (ts, te, false)
        | none => tagIdxE.map (fun p => (p.1, p.2, false))
      match chosen with
      | none => b
      | some (tagStart, tagEnd, isEsc) =>
        let esiPointer0 := tagEnd
        let t := findTagName (next.drop esiPointer0)
        let esiPointer := if isEsc then esiPointer0 + 7 else esiPointer0
        if t = some .include then
          processNonIncludesAux procTag fuel b (pointer + tagStart + tagEnd + 1)
        else
          let r := procTag t (next.drop esiPointer)
          let esiPointer2 := esiPointer + r.2
          let b2 := b.take pointer ++ next.take tagStart ++ r.1 ++ next.drop esiPointer2
          processNonIncludesAux procTag fuel b2 (pointer + r.1.length + tagStart)
    else b

/-- Model of `Parse` = `parseParallel` (parse source lines 155-174): plan
the include sites, splice the fetched contents when there are any, then run
the non-include pass. -/
def parseParallelModel (procTag : Option TagKind → List Char → List Char × Nat)
    (getOrFetch : Nat → List Char → Option (List Char)) (b : List Char) :
    List Char :=
  let includes := collectIncludes b
  let b1 := if 0 < includes.length then fetchIncludesParallel b includes getOrFetch else b
  processNonIncludesAux procTag (b1.length + 1) b1 0

/-- Written from the claim formula of C9: the spliced output is
`B[lo:p₁] ++ R₁ ++ B[end₁:p₂] ++ R₂ ++ … ++ B[endₖ:]`. -/
def splicedSpec (b : List Char) : List (List Char × IncludeReq) → Nat → List Char
  | [], lo => b.drop lo
  | (content, inc) :: rest, lo =>
    ((b.take inc.position).drop lo) ++ content ++
      splicedSpec b rest (inc.position + inc.length)

/-- Sites listed in strictly structured order: each starts at or after `lo`
and the next starts at or after the previous end (disjoint, ascending). -/
def sitesChainedB : Nat → List IncludeReq → Bool
  | _, [] => true
  | lo, inc :: rest =>
    decide (lo ≤ inc.position) && sitesChainedB (inc.position + inc.length) rest

/-- Erasing the same element from both sides of a permutation of a
duplicate-free list yields a permutation. -/
theorem perm_erase_of_nodup {α : Type} [BEq α] [LawfulBEq α] (a : α)
    {l₁ l₂ : List α} (hnd : l₁.Nodup) (h : l₁.Perm l₂) :
    (l₁.erase a).Perm (l₂.erase a) := by
  rw [List.erase_eq_eraseP, List.erase_eq_eraseP]
  refine List.Perm.eraseP _ ?_ h
  exact List.Pairwise.imp
    (fun hne hax hay => hne ((eq_of_beq hax).symm.trans (eq_of_beq hay))) hnd

/-- A list is a permutation of its first `p`-satisfying element consed onto
the list with that element removed. -/
theorem perm_cons_eraseP {α : Type} (p : α → Bool) :
    ∀ (l : List α) (e : α), l.find? p = some e → l.Perm (e :: l.eraseP p) := by
  intro l
  induction l with
  | nil => intro e h; simp at h
  | cons a t ih =>
    intro e h
    by_cases hpa : p a
    · rw [List.find?_cons_of_pos _ hpa] at h
      cases h
      rw [List.eraseP_cons_of_pos hpa]
    · rw [List.find?_cons_of_neg _ hpa] at h
      rw [List.eraseP_cons_of_neg hpa]
      exact ((ih e h).cons a).trans (List.Perm.swap e a _)

/-- `cacheGet` preserves the coupling invariant. -/
theorem cacheGet_inv (c : FragmentCache) (url : List Char) (now : Int)
    (h : cacheInv c) : cacheInv (cacheGet c url now).2 := by
  obtain ⟨hnd, hperm, hlen⟩ := h
  unfold cacheGet
  by_cases hmem : url ∈ c.entries
  · simp only [hmem, if_true]
    cases hfind : c.lru.find? (fun e => e.url = url) with
    | none => exact ⟨hnd, hperm, hlen⟩
    | some e =>
      by_cases hexp : e.expiresAt < now
      · simp only [hexp, if_true]
        exact ⟨hnd, hperm, hlen⟩
      · simp only [hexp, if_false]
        have hp := perm_cons_eraseP _ c.lru e hfind
        refine ⟨hnd, hperm.trans (List.Perm.map _ hp), ?_⟩
        have hle := hp.length_eq
        simp only [List.length_cons] at hle ⊢
        omega
  · simp only [hmem, if_false]
    exact ⟨hnd, hperm, hlen⟩

/-- `evictLoop` preserves the key/url coupling and caps the list length at
`maxCacheEntries`. -/
theorem evictLoop_inv :
    ∀ (entries : List (List Char)) (lru : List CacheEntry),
      entries.Nodup → entries.Perm (lru.map (·.url)) →
      (evictLoop entries lru).1.Nodup ∧
        (evictLoop entries lru).1.Perm ((evictLoop entries lru).2.map (·.url)) ∧
        (evictLoop entries lru).2.length ≤ maxCacheEntries := by
  intro entries lru
  induction entries, lru using evictLoop.induct with
  | case2 entries lru h oldest hlast ih =>
    intro hnd hperm
    rw [evictLoop, dif_pos h, hlast]
    have hlru : lru = lru.dropLast ++ [oldest] := by
      conv_lhs => rw [← List.dropLast_append_getLast? _ hlast]
    have hdup : (lru.map (·.url)).Nodup := hperm.nodup_iff.mp hnd
    have hmapsplit : lru.map (·.url) = lru.dropLast.map (·.url) ++ [oldest.url] := by
      conv_lhs => rw [hlru]
      simp
    have hnotmem : oldest.url ∉ lru.dropLast.map (·.url) := by
      rw [hmapsplit] at hdup
      have := List.disjoint_of_nodup_append hdup
      intro hmem
      exact this hmem (by simp)
    have herase : (lru.map (·.url)).erase oldest.url = lru.dropLast.map (·.url) := by
      rw [hmapsplit, List.erase_append_right _ hnotmem]
      simp
    refine ih (hnd.erase _) ?_
    rw [← herase]
    exact perm_erase_of_nodup oldest.url hnd hperm
  | case1 entries lru h hlast =>
    intro hnd hperm
    have : lru = [] := List.getLast?_eq_none_iff.mp hlast
    subst this
    exact absurd h (by simp)
  | case3 entries lru h =>
    intro hnd hperm
    rw [evictLoop, dif_neg h]
    exact ⟨hnd, hperm, by show lru.length ≤ maxCacheEntries; omega⟩

/-- `cachePut` preserves the coupling invariant. -/
theorem cachePut_inv (c : FragmentCache) (url data : List Char)
    (cc : Option (List Char)) (now : Int) (h : cacheInv c) :
    cacheInv (cachePut c url data cc now) := by
  obtain ⟨hnd, hperm, hlen⟩ := h
  unfold cachePut
  by_cases httl : parseTTL cc = 0
  · simp only [httl, if_true]
    exact ⟨hnd, hperm, hlen⟩
  · simp only [httl, if_false]
    by_cases hmem : url ∈ c.entries
    · simp only [hmem, if_true]
      have hmap : url ∈ c.lru.map (·.url) := hperm.mem_iff.mp hmem
      obtain ⟨e, hel, heq⟩ := List.mem_map.mp hmap
      have hfind : c.lru.find? (fun e' => e'.url = url) ≠ none := by
        rw [Ne, List.find?_eq_none]
        push_neg
        exact ⟨e, hel, by simp [heq]⟩
      cases hf : c.lru.find? (fun e' => e'.url = url) with
      | none => exact absurd hf hfind
      | some e' =>
        have hp := perm_cons_eraseP _ c.lru e' hf
        have he'url : e'.url = url := by
          have := List.find?_some hf
          simpa using this
        refine ⟨hnd, ?_, ?_⟩
        · have : (c.lru.map (·.url)).Perm
              (url :: (c.lru.eraseP (fun e'' => e''.url = url)).map (·.url)) := by
            have := hp.map (·.url)
            simpa [he'url] using this
          exact (hperm.trans this).trans (by simp)
        · have := hp.length_eq
          simp only [List.length_cons] at this
          simp only [List.length_cons]
          omega
    · simp only [hmem, if_false]
      have hnd1 : (url :: c.entries).Nodup := List.nodup_cons.mpr ⟨hmem, hnd⟩
      have hperm1 : (url :: c.entries).Perm
          ((({ url := url, data := data, expiresAt := now + parseTTL cc } :
            CacheEntry) :: c.lru).map (·.url)) := by
        simpa using hperm.cons url
      exact evictLoop_inv _ _ hnd1 hperm1

/-- Every operation preserves the coupling invariant. -/
theorem applyOp_inv (c : FragmentCache) (op : CacheOp) (h : cacheInv c) :
    cacheInv (applyOp c op) := by
  cases op with
  | put u d cc now => exact cachePut_inv c u d cc now h
  | get u now => exact cacheGet_inv c u now h
  | reset => exact ⟨List.nodup_nil, List.Perm.refl _,
      by simp [applyOp, cacheReset, maxCacheEntries]⟩

/-- The invariant is preserved along any fold of operations. -/
theorem foldl_applyOp_inv :
    ∀ (ops : List CacheOp) (c : FragmentCache), cacheInv c →
      cacheInv (ops.foldl applyOp c) := by
  intro ops
  induction ops with
  | nil => intro c hc; exact hc
  | cons op rest ih => intro c hc; exact ih _ (applyOp_inv _ op hc)

/-- The invariant holds in every reachable state. -/
theorem runOps_inv (ops : List CacheOp) : cacheInv (runOps ops) :=
  foldl_applyOp_inv ops cacheInit
    ⟨List.nodup_nil, List.Perm.refl _, by simp [cacheInit, maxCacheEntries]⟩

/-- C3: for every cache state reachable by any finite sequence of `Put`,
`Get` and `Reset` operations, the number of entries in the key map equals
the length of the LRU list and both are at most `maxCacheEntries` (1000);
the eviction in `cachePut`/`evictLoop` removes the LRU tail element and
deletes its key whenever the bound is exceeded. -/
theorem c3_cache_size_bounded (ops : List CacheOp) :
    (runOps ops).entries.length = (runOps ops).lru.length ∧
      (runOps ops).entries.length ≤ maxCacheEntries ∧
      (runOps ops).lru.length ≤ maxCacheEntries := by
  obtain ⟨_, hperm, hlen⟩ := runOps_inv ops
  have hle := hperm.length_eq
  simp only [List.length_map] at hle
  exact ⟨hle, by omega, hlen⟩

/-- A no-cache or no-store directive makes the loop body return 0. -/
theorem directiveResult_noCache (d : List Char)
    (hd : isNoCacheDirective d = true) : directiveResult d = some 0 := by
  simp only [isNoCacheDirective, Bool.or_eq_true, decide_eq_true_eq] at hd
  rcases hd with h | h <;>
    (simp only [directiveResult]; rw [h]; decide)

/-- The directive loop returns 0 when a no-cache or no-store directive
follows only directives the loop body skips. -/
theorem parseTTLDirectives_zero (pre post : List (List Char)) (d : List Char)
    (hpre : ∀ x ∈ pre, directiveResult x = none)
    (hd : isNoCacheDirective d = true) :
    parseTTLDirectives (pre ++ d :: post) = 0 := by
  induction pre with
  | nil =>
    simp only [List.nil_append, parseTTLDirectives, directiveResult_noCache d hd]
  | cons x pre ih =>
    have hx := hpre x (by simp)
    simp only [List.cons_append, parseTTLDirectives, hx]
    exact ih (fun y hy => hpre y (by simp [hy]))

/-- C4 counterexample: the claim says any `Cache-Control` containing
`no-cache` yields TTL 0 regardless of order, but `max-age=100, no-cache`
yields 100 — the loop returns on the earlier valid `max-age` before ever
comparing against `no-cache`. -/
theorem c4_counterexample :
    parseTTL (some "max-age=100, no-cache".toList) = 100 ∧ (100 : Int) ≠ 0 :=
  ⟨by decide, by decide⟩

/-- C4 amended: `parseTTL` returns 0 when a `no-cache` or `no-store`
directive appears before any directive on which the loop returns (in
particular before any well-formed non-negative `max-age`); a valid
`max-age` appearing earlier takes precedence instead. -/
theorem c4_amended (cc : List Char) (pre post : List (List Char)) (d : List Char)
    (hsplit : splitOn ',' cc = pre ++ d :: post)
    (hpre : ∀ x ∈ pre, directiveResult x = none)
    (hd : isNoCacheDirective d = true) :
    parseTTL (some cc) = 0 := by
  by_cases hcc : cc = []
  · subst hcc
    simp only [splitOn] at hsplit
    cases pre with
    | nil =>
      simp only [List.nil_append, List.cons.injEq] at hsplit
      obtain ⟨rfl, -⟩ := hsplit
      exact absurd hd (by decide)
    | cons x pre' =>
      simp only [List.cons_append, List.cons.injEq] at hsplit
      exact absurd hsplit.2 (by simp)
  · simp only [parseTTL, hcc, if_false, hsplit]
    exact parseTTLDirectives_zero pre post d hpre hd

/-- C4 witness: `no-cache, max-age=50` derives TTL 0 through the amended
statement. -/
theorem c4_amended_witness : parseTTL (some "no-cache, max-age=50".toList) = 0 :=
  c4_amended _ [] [" max-age=50".toList] "no-cache".toList
    (by decide) (by simp) (by decide)

/-- C5: `Put` stores with the raw `parseTTL` value (cache source line 325);
`MinimumCacheTTL` and `applyTTLJitter` are never consulted on that path.
With `MinimumCacheTTL` 600 and zero jitter, a `max-age=10` response is
stored with expiry `now + 10`, not the `now + 600` the spec prescribes
(`specStoredTTL`). -/
theorem c5_minimum_ttl_ignored :
    cachePut cacheInit "u".toList "d".toList (some "max-age=10".toList) 0 =
      { entries := ["u".toList],
        lru := [{ url := "u".toList, data := "d".toList, expiresAt := 10 }] } ∧
    specStoredTTL 600 0 (parseTTL (some "max-age=10".toList)) = 600 ∧
    ((10 : Int) = 600 → False) := by
  refine ⟨?_, by decide, by decide⟩
  have h10 : parseTTL (some "max-age=10".toList) = 10 := by decide
  simp only [cachePut, h10, cacheInit]
  norm_num
  rw [evictLoop]
  norm_num [maxCacheEntries]

/-- C6: `FetchContent` keys the fragment with `sanitizeURL(src, req.URL)`
(include source line 211) and never consults the configured `BaseURL`; with
`BaseURL = http://localhost:9000`, a `/frag` include on a request for
`https://example.com/page` is fetched from `https://example.com/frag`
instead of the `http://localhost:9000/frag` that `resolveFragmentURL`
(config source) and the configuration documentation prescribe. -/
theorem c6_base_url_ignored :
    fetchCacheKey "/frag" (some ⟨"https", "example.com", "/page"⟩)
        = "https://example.com/frag" ∧
    resolveFragmentURL "http://localhost:9000" "/frag"
        (some ⟨"https", "example.com", "/page"⟩) = "http://localhost:9000/frag" ∧
    ("https://example.com/frag" = "http://localhost:9000/frag" → False) :=
  ⟨by decide, by decide, by decide⟩

/-- C2: `GetOrFetch` calls `req.wg.Add(1)` only after publishing the record
through `LoadOrStore` (cache source lines 276, 291), so a losing caller can
run `wg.Wait` while the counter is still zero and return the record's
not-yet-written result.  Under `sfRacySchedule` the fetch function runs
exactly once and the loser never runs it, yet caller B returns nil while
caller A returns the fetched bytes — the callers do not all return the same
bytes. -/
theorem c2_stampede_race :
    (sfRun "payload".toList sfRacySchedule).fetchCount = 1 ∧
    (sfRun "payload".toList sfRacySchedule).thA.ret = some (some "payload".toList) ∧
    (sfRun "payload".toList sfRacySchedule).thB.ret = some none ∧
    ((some (none : Option (List Char)) =
      some (some "payload".toList)) → False) :=
  ⟨by decide, by decide, by decide, by decide⟩

/-- C7: the fragment request built by the fetch closure copies `Accept` and
`Accept-Language` from the client request whenever present, and carries
`Cookie` / `Authorization` exactly when the fragment URL matches the client
request URL on scheme and `Host` (host and port); cross-origin fragment
requests never carry them. -/
theorem c7_header_policy (clientURL rqURL : GoURL)
    (ch : List (String × String)) :
    (∀ h ∈ headersSafe, headerGet ch h ≠ "" →
      headerGet (fragmentRequestHeaders clientURL rqURL ch) h = headerGet ch h) ∧
    (∀ h ∈ headersUnsafe,
      headerGet (fragmentRequestHeaders clientURL rqURL ch) h =
        if rqURL.scheme = clientURL.scheme ∧ rqURL.host = clientURL.host
        then headerGet ch h else "") := by
  constructor
  · intro h hmem hval
    simp only [headersSafe, List.mem_cons, List.not_mem_nil, or_false] at hmem
    unfold fragmentRequestHeaders
    by_cases ho : rqURL.scheme = clientURL.scheme ∧ rqURL.host = clientURL.host
    · rw [if_pos ho]
      rcases hmem with rfl | rfl <;>
        by_cases ha : headerGet ch "Accept" = "" <;>
        by_cases hal : headerGet ch "Accept-Language" = "" <;>
        by_cases hck : headerGet ch "Cookie" = "" <;>
        by_cases hau : headerGet ch "Authorization" = "" <;>
          simp_all [addHeaders, headersSafe, headersUnsafe, headerAdd, headerGet,
            List.find?]
    · rw [if_neg ho]
      rcases hmem with rfl | rfl <;>
        by_cases ha : headerGet ch "Accept" = "" <;>
        by_cases hal : headerGet ch "Accept-Language" = "" <;>
          simp_all [addHeaders, headersSafe, headersUnsafe, headerAdd, headerGet,
            List.find?]
  · intro h hmem
    simp only [headersUnsafe, List.mem_cons, List.not_mem_nil, or_false] at hmem
    unfold fragmentRequestHeaders
    by_cases ho : rqURL.scheme = clientURL.scheme ∧ rqURL.host = clientURL.host
    · rw [if_pos ho, if_pos ho]
      rcases hmem with rfl | rfl <;>
        by_cases ha : headerGet ch "Accept" = "" <;>
        by_cases hal : headerGet ch "Accept-Language" = "" <;>
        by_cases hck : headerGet ch "Cookie" = "" <;>
        by_cases hau : headerGet ch "Authorization" = "" <;>
          simp_all [addHeaders, headersSafe, headersUnsafe, headerAdd, headerGet,
            List.find?]
    · rw [if_neg ho, if_neg ho]
      rcases hmem with rfl | rfl <;>
        by_cases ha : headerGet ch "Accept" = "" <;>
        by_cases hal : headerGet ch "Accept-Language" = "" <;>
          simp_all [addHeaders, headersSafe, headersUnsafe, headerAdd, headerGet,
            List.find?]

/-- C7 witness: with a client request carrying Accept and Cookie, the
cross-origin fragment request drops the Cookie. -/
theorem c7_header_policy_witness :
    headerGet (fragmentRequestHeaders ⟨"https", "a.com", "/"⟩
      ⟨"https", "evil.com", ""⟩
      [("Accept", "text/html"), ("Cookie", "sid=1")]) "Cookie" = "" := by
  have h := (c7_header_policy ⟨"https", "a.com", "/"⟩ ⟨"https", "evil.com", ""⟩
    [("Accept", "text/html"), ("Cookie", "sid=1")]).2 "Cookie"
    (by simp [headersUnsafe])
  rw [h]
  decide

/-- C1 counterexample: a primary response with status 500 and no `alt`
passes neither early return of the fetch closure, so its (processed) body is
spliced into the document — `Parse` on `a<esi:include src=u/>b` yields
`aErrorb`, not the empty substitution `ab` the claim requires. -/
theorem c1_counterexample :
    parseParallelModel (fun _ _ => ([], 0))
        (fun _ _ => getOrFetchMiss (includeFetchFn (some ⟨500, "Error".toList⟩)
          none [] false id))
        "a<esi:include src=u/>b".toList = "aErrorb".toList ∧
    fetchFailed (some ⟨500, "Error".toList⟩) = true ∧
    ("aErrorb".toList ≠ "ab".toList) :=
  ⟨by decide, by decide, by decide⟩

/-- C1 amended: empty bytes are substituted exactly on the early-return
paths of the fetch closure: a transport error with no `alt`; a transport
error on the `alt` attempt; or `alt` set, non-silent, with both attempts
failed.  A failed response that escapes these paths (in particular any
status ≥ 400 with no `alt` configured, or a failed `alt` under
`onerror="continue"`) has its processed body spliced instead. -/
theorem c1_amended (primary altResp : Option HResp) (altAttr : List Char)
    (silent : Bool) (process : List Char → List Char) :
    (primary = none → altAttr = [] →
      fetchOutcomeBytes (includeFetchFn primary altResp altAttr silent process) = []) ∧
    (fetchFailed primary = true → altAttr ≠ [] → silent = false →
      fetchFailed altResp = true →
      fetchOutcomeBytes (includeFetchFn primary altResp altAttr silent process) = []) ∧
    (fetchFailed primary = true → altAttr ≠ [] → altResp = none →
      fetchOutcomeBytes (includeFetchFn primary altResp altAttr silent process) = []) := by
  refine ⟨?_, ?_, ?_⟩
  · rintro rfl rfl
    simp [includeFetchFn, fetchOutcomeBytes]
  · intro hp hna hs hfa
    subst hs
    simp [includeFetchFn, fetchOutcomeBytes, hp, hna, hfa]
  · intro hp hna hres
    subst hres
    cases silent <;>
      simp [includeFetchFn, fetchOutcomeBytes, hp, hna,
        show fetchFailed none = true from rfl]

/-- C1 witness: primary 404 with a non-silent failing alt yields empty
bytes through the amended statement. -/
theorem c1_amended_witness :
    fetchFailed (some ⟨404, "NF".toList⟩) = true ∧
    fetchFailed (some ⟨500, "E".toList⟩) = true ∧
    fetchOutcomeBytes (includeFetchFn (some ⟨404, "NF".toList⟩)
      (some ⟨500, "E".toList⟩) "x".toList false id) = [] :=
  ⟨by decide, by decide,
    (c1_amended (some ⟨404, "NF".toList⟩) (some ⟨500, "E".toList⟩)
      "x".toList false id).2.1 (by decide) (by decide) rfl (by decide)⟩

/-- C8 counterexample: `a<esi:include x/>b` has an include site with no
parsable `src`; the claim says the markup is left unchanged and the site
dropped from the plan, but the planner records the site and the splicer
removes its markup: the output is `ab`. -/
theorem c8_counterexample :
    parseParallelModel (fun _ _ => ([], 0)) (fun _ _ => none)
        "a<esi:include x/>b".toList = "ab".toList ∧
    collectIncludes "a<esi:include x/>b".toList = [⟨1, 16⟩] ∧
    ("ab".toList ≠ "a<esi:include x/>b".toList) :=
  ⟨by decide, by decide, by decide⟩

/-- C8 amended: a planned include site whose attribute parse fails (the
`src` regex finds no match on the attribute slice the code examines)
contributes nil content, and the splicer replaces the site's markup with
empty bytes — the markup is removed from the output, not preserved. -/
theorem c8_amended (b : List Char) (inc : IncludeReq)
    (oracle : List Char → Option (List Char))
    (h : ((findSubstr closeIncludePat (siteTagBytes b inc)).all
      (fun cidx => (matchSrcAttr (((siteTagBytes b inc).take
        (cidx + closeIncludePat.length)).drop 8)).isNone)) = true) :
    fetchContentModel (siteTagBytes b inc) oracle = none ∧
    fetchIncludesParallel b [inc] (fun _ => oracle)
      = b.take inc.position ++ b.drop (min (inc.position + inc.length) b.length) := by
  have h1 : fetchContentModel (siteTagBytes b inc) oracle = none := by
    unfold fetchContentModel
    cases hf : findSubstr closeIncludePat (siteTagBytes b inc) with
    | none => rfl
    | some cidx =>
      rw [hf] at h
      simp only [Option.all] at h
      cases hm : matchSrcAttr (((siteTagBytes b inc).take
          (cidx + closeIncludePat.length)).drop 8) with
      | none => simp [hm]
      | some src => rw [hm] at h; simp at h
  refine ⟨h1, ?_⟩
  simp [fetchIncludesParallel, includeResults, includeContent, h1, spliceOne]

/-- C8 witness: the site of `a<esi:include x/>b` fails attribute parsing and
is replaced with empty bytes through the amended statement (even with an
oracle that would return content). -/
theorem c8_amended_witness :
    fetchIncludesParallel "a<esi:include x/>b".toList [⟨1, 16⟩]
      (fun _ => fun _ => some "X".toList) = "ab".toList :=
  ((c8_amended "a<esi:include x/>b".toList ⟨1, 16⟩ (fun _ => some "X".toList)
    (by decide)).2).trans (by decide)

/-- The descending-order splice loop produces the in-order concatenation
`B[lo:p₁] ++ R₁ ++ B[end₁:p₂] ++ … ++ B[endₖ:]` for chained in-bound sites. -/
theorem spliceFold_eq_spec (b : List Char) :
    ∀ (results : List (List Char × IncludeReq)) (lo : Nat),
      sitesChainedB lo (results.map (·.2)) = true →
      (∀ p ∈ results, p.2.position + p.2.length ≤ b.length) →
      (results.reverse).foldl
          (fun acc p => spliceOne acc p.1 p.2.position p.2.length) b
        = b.take lo ++ splicedSpec b results lo := by
  intro results
  induction results with
  | nil => intro lo _ _; simp [splicedSpec]
  | cons x rest ih =>
    intro lo hch hbd
    obtain ⟨content, inc⟩ := x
    simp only [List.map_cons, sitesChainedB, Bool.and_eq_true,
      decide_eq_true_eq] at hch
    obtain ⟨hlo, hch'⟩ := hch
    have hb1 : inc.position + inc.length ≤ b.length :=
      hbd (content, inc) (List.mem_cons_self _ _)
    have hrest := ih (inc.position + inc.length) hch'
      (fun p hp => hbd p (List.mem_cons_of_mem _ hp))
    rw [List.reverse_cons, List.foldl_append, hrest]
    simp only [List.foldl_cons, List.foldl_nil]
    have hlenA : (b.take (inc.position + inc.length)).length
        = inc.position + inc.length := by
      simp [List.length_take]
      omega
    unfold spliceOne
    have hmin : min (inc.position + inc.length)
        (b.take (inc.position + inc.length)
          ++ splicedSpec b rest (inc.position + inc.length)).length
        = (b.take (inc.position + inc.length)).length := by
      simp [hlenA]
    rw [hmin]
    simp only [List.drop_left]
    have htake : (b.take (inc.position + inc.length)
        ++ splicedSpec b rest (inc.position + inc.length)).take inc.position
        = b.take inc.position := by
      rw [List.take_append_of_le_length (by omega)]
      rw [List.take_take]
      congr 1
      omega
    rw [htake]
    show b.take inc.position ++ content
        ++ splicedSpec b rest (inc.position + inc.length)
      = b.take lo ++ splicedSpec b ((content, inc) :: rest) lo
    simp only [splicedSpec]
    have hassemble : b.take lo ++ (b.take inc.position).drop lo
        = b.take inc.position := by
      have : b.take lo = (b.take inc.position).take lo := by
        rw [List.take_take]
        congr 1
        omega
      rw [this, List.take_append_drop]
    rw [← List.append_assoc, ← List.append_assoc, hassemble]

/-- C9: for chained, in-bound include sites at positions `p₁ < … < pₖ`, the
descending-order splice of `fetchIncludesParallel` yields exactly
`B[0:p₁] ++ R₁ ++ B[end₁:p₂] ++ R₂ ++ … ++ B[endₖ:]` where `Rᵢ` is the
content fetched for site `i`. -/
theorem c9_splice_descending (b : List Char) (includes : List IncludeReq)
    (getOrFetch : Nat → List Char → Option (List Char))
    (hch : sitesChainedB 0 includes = true)
    (hbd : ∀ inc ∈ includes, inc.position + inc.length ≤ b.length) :
    fetchIncludesParallel b includes getOrFetch
      = splicedSpec b (includeResults b includes getOrFetch) 0 := by
  have hmap : (includeResults b includes getOrFetch).map (·.2) = includes := by
    simp [includeResults, List.map_map]
    exact List.enum_map_snd includes
  have hbd' : ∀ p ∈ includeResults b includes getOrFetch,
      p.2.position + p.2.length ≤ b.length := by
    intro p hp
    apply hbd
    have hm : p.2 ∈ (includeResults b includes getOrFetch).map (·.2) :=
      List.mem_map_of_mem _ hp
    rwa [hmap] at hm
  have hmain := spliceFold_eq_spec b (includeResults b includes getOrFetch) 0
    (by rw [hmap]; exact hch) hbd'
  simpa [fetchIncludesParallel] using hmain

/-- C9 witness: two concrete sibling includes splice in position order. -/
theorem c9_splice_descending_witness :
    fetchIncludesParallel "a<esi:include src=u/>b<esi:include src=v/>c".toList
        [⟨1, 20⟩, ⟨22, 20⟩] (fun _ src => some src)
      = splicedSpec "a<esi:include src=u/>b<esi:include src=v/>c".toList
        (includeResults "a<esi:include src=u/>b<esi:include src=v/>c".toList
          [⟨1, 20⟩, ⟨22, 20⟩] (fun _ src => some src)) 0 :=
  c9_splice_descending _ [⟨1, 20⟩, ⟨22, 20⟩] (fun _ src => some src)
    (by decide) (by decide)

/-- C10: a buffer with no `<esi:` opening and no `<!--esi` opening passes
through `Parse` unchanged: the planner records nothing, the splice phase is
skipped, and the non-include pass exits on its first scan. -/
theorem c10_no_constructs (b : List Char)
    (procTag : Option TagKind → List Char → List Char × Nat)
    (getOrFetch : Nat → List Char → Option (List Char))
    (h1 : findSubstr esiOpenPat b = none)
    (h2 : findSubstr escOpenPat b = none) :
    parseParallelModel procTag getOrFetch b = b := by
  have hcol : collectIncludes b = [] := by
    unfold collectIncludes
    simp [collectIncludesAux, h1]
  unfold parseParallelModel
  rw [hcol]
  simp only [List.length_nil, lt_irrefl, if_false]
  simp [processNonIncludesAux, h1, h2]

/-- C10 witness: a plain text buffer is returned unchanged. -/
theorem c10_no_constructs_witness :
    parseParallelModel (fun _ _ => ([], 0)) (fun _ _ => none)
      "hello world".toList = "hello world".toList :=
  c10_no_constructs "hello world".toList (fun _ _ => ([], 0)) (fun _ _ => none)
    (by decide) (by decide)

end GoEsi
